import Mathlib

/-
Verification of the move-entry state machine and serial transport of the
ProyectoAjedrezMicro repository (completo.py / inicial.py).

The chess rules engine (python-chess) is an external collaborator; following
the specification it is treated as an opaque interface (`Engine`), exposing
side to move, piece occupancy, legal-move enumeration, capture test, move
application, game-over test and FEN encoding. All GUI-level definitions
below (`on_square_clicked`, `computeTargets`, `is_pawn_promotion`,
`make_computer_move`, `reset_game`, `initState`) are direct translations of
the corresponding methods of class ChessGUI in completo.py; the serial-layer
definitions (`send_line`, `read_line`) translate class ArduinoLink.
Python sets are modelled as lists with `List.insert` (set.add); the lines
written to the serial link and the moves pushed on the board are made
explicit as the `sent` and `applied` components of a `ClickResult`.
-/

/-- Piece kinds, as in the chess module (PAWN .. KING). -/
inductive PieceType
  | pawn
  | knight
  | bishop
  | rook
  | queen
  | king
deriving DecidableEq, Repr

/-- chess.WHITE is the boolean True. -/
abbrev WHITE : Bool := true

/-- chess.BLACK is the boolean False. -/
abbrev BLACK : Bool := false

/-- A chess.Piece: a colour together with a piece type. -/
structure Piece where
  color : Bool
  pieceType : PieceType
deriving DecidableEq, Repr

/-- A chess.Move: origin square, destination square, optional promotion
piece.  Equality is structural, as in python-chess. -/
structure Move where
  from_square : Nat
  to_square : Nat
  promotion : Option PieceType
deriving DecidableEq, Repr

/-- chess.square(file_index, rank_index) = rank_index * 8 + file_index. -/
def square (file rank : Nat) : Nat := rank * 8 + file

/-- chess.square_rank(sq) = sq >> 3. -/
def square_rank (sq : Nat) : Nat := sq / 8

/-- The opaque chess-engine interface (python-chess `Board`), as the spec
describes it: an abstract board-state type exposing current side to move,
piece occupancy per square, legal-move enumeration, capture test, move
application, terminal-state detection and FEN encoding.  `initial` is the
standard start position built by `chess.Board()`. -/
structure Engine (β : Type) where
  turn : β → Bool
  piece_at : β → Nat → Option Piece
  legal_moves : β → List Move
  is_capture : β → Move → Bool
  push : β → Move → β
  is_game_over : β → Bool
  fen : β → String
  initial : β

/-- Game mode: the tk radio buttons offer "pvp" (2 players) and
"pvc" (human = white vs machine = black). -/
inductive Mode
  | pvp
  | pvc
deriving DecidableEq, Repr

/-- The mutable state of class ChessGUI that the state machine touches:
board, optional selected square, the two highlight target sets (Python
sets of squares, modelled as lists), and the game mode. -/
structure GuiState (β : Type) where
  board : β
  selected_square : Option Nat
  legal_targets : List Nat
  capture_targets : List Nat
  mode : Mode
deriving DecidableEq, Repr

/-- Result of processing one event: the new GUI state, the payload strings
passed to link.send_line (in order), and the moves pushed on the board (in
order). -/
structure ClickResult (β : Type) where
  st : GuiState β
  sent : List String
  applied : List Move
deriving DecidableEq, Repr

/-- The triple of assignments clearing the selection that completo.py
repeats (selected_square = None; legal_targets.clear(); capture_targets.clear()). -/
def clearSel {β : Type} (st : GuiState β) : GuiState β :=
  { st with selected_square := none, legal_targets := [], capture_targets := [] }

/-- Loop body of ChessGUI._compute_targets_for_selected: for one legal move
m, if it starts at the selected square, add its destination to
legal_targets and, when the move is a capture, also to capture_targets. -/
def targetsStep {β : Type} (E : Engine β) (b : β) (sel : Nat)
    (acc : List Nat × List Nat) (m : Move) : List Nat × List Nat :=
  if m.from_square = sel then
    (acc.1.insert m.to_square,
     if E.is_capture b m then acc.2.insert m.to_square else acc.2)
  else acc

/-- ChessGUI._compute_targets_for_selected: clear both sets, then iterate
over the legal moves with `targetsStep`.  Returns the pair
(legal_targets, capture_targets). -/
def computeTargets {β : Type} (E : Engine β) (b : β) (sel : Nat) : List Nat × List Nat :=
  (E.legal_moves b).foldl (targetsStep E b sel) ([], [])

/-- ChessGUI._is_pawn_promotion: the piece at from_sq is a pawn and to_sq
lies on the last rank for the pawn's colour (rank 7 for white, rank 0 for
black). -/
def is_pawn_promotion {β : Type} (E : Engine β) (b : β) (from_sq to_sq : Nat) : Bool :=
  match E.piece_at b from_sq with
  | none => false
  | some piece =>
    if piece.pieceType ≠ PieceType.pawn then false
    else
      decide ((piece.color = WHITE ∧ square_rank to_sq = 7) ∨
              (piece.color = BLACK ∧ square_rank to_sq = 0))

/-- ChessGUI._make_computer_move: if the game is over, return; list the
legal moves; if empty, return; otherwise push a random.choice of the list
(modelled by the index rng mod length, random.choice being uniform over
exactly that list) and send the new FEN. -/
def make_computer_move {β : Type} (E : Engine β) (rng : Nat) (st : GuiState β) :
    ClickResult β :=
  if E.is_game_over st.board = true then ⟨st, [], []⟩
  else
    let legal := E.legal_moves st.board
    if legal.isEmpty then ⟨st, [], []⟩
    else
      let move := legal.getD (rng % legal.length) ⟨0, 0, none⟩
      let b2 := E.push st.board move
      ⟨{ st with board := b2 }, [E.fen b2], [move]⟩

/-- ChessGUI.on_square_clicked: the complete two-click state machine of
completo.py, including the game-over and machine-turn guards, first-click
selection, deselection, the automatic queen-promotion retry, move
application with FEN send, and the computer reply in "pvc" mode.  `rng`
feeds the random.choice of the computer reply. -/
def on_square_clicked {β : Type} (E : Engine β) (rng : Nat) (st : GuiState β)
    (rank file : Nat) : ClickResult β :=
  if E.is_game_over st.board = true then ⟨st, [], []⟩
  else if st.mode = Mode.pvc ∧ E.turn st.board = BLACK then ⟨st, [], []⟩
  else
    let sq := square file rank
    match st.selected_square with
    | none =>
      match E.piece_at st.board sq with
      | none => ⟨st, [], []⟩
      | some piece =>
        if piece.color ≠ E.turn st.board then ⟨st, [], []⟩
        else
          let ts := computeTargets E st.board sq
          ⟨{ st with selected_square := some sq,
                     legal_targets := ts.1, capture_targets := ts.2 }, [], []⟩
    | some sel =>
      if sq = sel then ⟨clearSel st, [], []⟩
      else
        let move0 : Move := ⟨sel, sq, none⟩
        let move := if move0 ∉ E.legal_moves st.board ∧
                       is_pawn_promotion E st.board sel sq = true
                    then (⟨sel, sq, some PieceType.queen⟩ : Move) else move0
        if move ∈ E.legal_moves st.board then
          let b2 := E.push st.board move
          let st1 := clearSel { st with board := b2 }
          if E.is_game_over b2 = true then ⟨st1, [E.fen b2], [move]⟩
          else if st.mode = Mode.pvc then
            let r := make_computer_move E rng st1
            ⟨r.st, E.fen b2 :: r.sent, move :: r.applied⟩
          else ⟨st1, [E.fen b2], [move]⟩
        else ⟨clearSel st, [], []⟩

/-- ChessGUI.reset_game: fresh start-position board, cleared selection and
target sets, and the FEN of the new board sent; the mode is untouched. -/
def reset_game {β : Type} (E : Engine β) (st : GuiState β) : ClickResult β :=
  ⟨{ board := E.initial, selected_square := none, legal_targets := [],
     capture_targets := [], mode := st.mode }, [E.fen E.initial], []⟩

/-- Selecting a game mode with the radio buttons only writes mode_var. -/
def set_mode {β : Type} (st : GuiState β) (m : Mode) : GuiState β :=
  { st with mode := m }

/-- ChessGUI.__init__: start-position board, no selection, empty target
sets, mode_var initialised to "pvp" (the initial FEN is also sent). -/
def initState {β : Type} (E : Engine β) : GuiState β :=
  { board := E.initial, selected_square := none, legal_targets := [],
    capture_targets := [], mode := Mode.pvp }

/-- The GUI states reachable from start-up through the program's event
handlers: square clicks, game reset, and mode selection. -/
inductive Reachable {β : Type} (E : Engine β) : GuiState β → Prop
  | init : Reachable E (initState E)
  | click (st : GuiState β) (rng rank file : Nat) :
      Reachable E st → Reachable E (on_square_clicked E rng st rank file).st
  | reset (st : GuiState β) :
      Reachable E st → Reachable E (reset_game E st).st
  | mode (st : GuiState β) (m : Mode) :
      Reachable E st → Reachable E (set_mode st m)

/-
Serial transport (class ArduinoLink, identical in completo.py and
inicial.py).  `send_line` is modelled at the byte level: its value is the
byte sequence handed to ser.write (ser.flush and the fixed write delay
have no observable data effect).  `read_line` is modelled as a function of
the outcome of ser.readline(): either a byte sequence (pyserial returns
the bytes read so far, b"" on a plain timeout) or a raised transport
exception, which the try/except swallows.
-/

/-- Modelled from the spec: UTF-8 encoding of one character, as performed
by Python str.encode("utf-8") (external standard library). -/
def utf8EncodeChar (c : Char) : List Nat :=
  let n := c.toNat
  if n < 0x80 then [n]
  else if n < 0x800 then [0xC0 + n / 64, 0x80 + n % 64]
  else if n < 0x10000 then [0xE0 + n / 4096, 0x80 + n / 64 % 64, 0x80 + n % 64]
  else [0xF0 + n / 262144, 0x80 + n / 4096 % 64, 0x80 + n / 64 % 64, 0x80 + n % 64]

/-- Modelled from the spec: Python line.encode("utf-8"), the UTF-8 bytes of
a string. -/
def utf8Encode (s : String) : List Nat :=
  s.data.flatMap utf8EncodeChar

/-- Python line.endswith("\n"): the last character, if any, is a newline. -/
def endswith_newline (line : String) : Bool :=
  line.data.getLast? == some '\n'

/-- ArduinoLink.send_line: append a newline if the line does not already
end in one, then write the UTF-8 bytes (and flush).  The value is the byte
sequence written to the port. -/
def send_line (line : String) : List Nat :=
  utf8Encode (if endswith_newline line then line else line ++ "\n")

/-- send_fen: encode the board as its FEN string and send it as one line. -/
def send_fen {β : Type} (E : Engine β) (b : β) : List Nat :=
  send_line (E.fen b)

/-- Outcome of one underlying ser.readline() call after the port is open:
either the bytes read (pyserial returns b"" or a partial line on timeout,
raising nothing), or a raised transport exception. -/
inductive ReadOutcome
  | bytes (bs : List Nat)
  | raise
deriving DecidableEq, Repr

/-- Modelled from the spec: bytes.decode("utf-8", errors="ignore")
(external standard library) — UTF-8 decoding that silently drops
malformed byte sequences instead of raising. -/
def decodeUtf8IgnoreAux : Nat → List Nat → List Char
  | 0, _ => []
  | _ + 1, [] => []
  | fuel + 1, b :: rest =>
    if b < 0x80 then
      Char.ofNat b :: decodeUtf8IgnoreAux fuel rest
    else if b < 0xC2 then
      decodeUtf8IgnoreAux fuel rest
    else if b < 0xE0 then
      match rest with
      | [] => []
      | b1 :: rest1 =>
        if 0x80 ≤ b1 ∧ b1 < 0xC0 then
          Char.ofNat ((b - 0xC0) * 64 + (b1 - 0x80)) :: decodeUtf8IgnoreAux fuel rest1
        else decodeUtf8IgnoreAux fuel rest
    else if b < 0xF0 then
      match rest with
      | b1 :: b2 :: rest2 =>
        if (0x80 ≤ b1 ∧ b1 < 0xC0) ∧ (0x80 ≤ b2 ∧ b2 < 0xC0) then
          let n := (b - 0xE0) * 4096 + (b1 - 0x80) * 64 + (b2 - 0x80)
          if n < 0xD800 ∨ 0xE000 ≤ n then Char.ofNat n :: decodeUtf8IgnoreAux fuel rest2
          else decodeUtf8IgnoreAux fuel rest2
        else decodeUtf8IgnoreAux fuel rest
      | _ => []
    else if b < 0xF5 then
      match rest with
      | b1 :: b2 :: b3 :: rest3 =>
        if (0x80 ≤ b1 ∧ b1 < 0xC0) ∧ (0x80 ≤ b2 ∧ b2 < 0xC0) ∧ (0x80 ≤ b3 ∧ b3 < 0xC0) then
          let n := (b - 0xF0) * 262144 + (b1 - 0x80) * 4096 + (b2 - 0x80) * 64 + (b3 - 0x80)
          if n < 0x110000 then Char.ofNat n :: decodeUtf8IgnoreAux fuel rest3
          else decodeUtf8IgnoreAux fuel rest3
        else decodeUtf8IgnoreAux fuel rest
      | _ => []
    else decodeUtf8IgnoreAux fuel rest

/-- Decoded text of a byte sequence, UTF-8 with errors ignored.  Each
decoding step consumes at least one byte, so a fuel of bs.length makes
the fuel-indexed worker total without ever cutting a decode short. -/
def decodeUtf8Ignore (bs : List Nat) : String :=
  String.mk (decodeUtf8IgnoreAux bs.length bs)

/-- The whitespace characters recognised by Python str.strip(). -/
def pyIsSpace (c : Char) : Bool :=
  c = ' ' ∨ c = '\t' ∨ c = '\n' ∨ c = '\r' ∨ c = '\x0b' ∨ c = '\x0c'

/-- Modelled from the spec: Python str.strip() (external standard
library) — remove leading and trailing whitespace. -/
def pyStrip (s : String) : String :=
  String.mk (((s.data.dropWhile pyIsSpace).reverse.dropWhile pyIsSpace).reverse)

/-- ArduinoLink.read_line: return
ser.readline().decode("utf-8", errors="ignore").strip(), and the empty
string if anything inside the try block raises. -/
def read_line (o : ReadOutcome) : String :=
  match o with
  | ReadOutcome.raise => ""
  | ReadOutcome.bytes bs => pyStrip (decodeUtf8Ignore bs)

/-
A scripted instance of the opaque engine interface, used to evaluate the
state machine on concrete inputs.  Its states abbreviate real python-chess
positions:
  0 : the start position (white to move; the pawn move e2-e4, squares
      12 -> 28, stands for its legal-move list);
  1 : after e2-e4 (black to move; e7-e5, squares 52 -> 36, stands for its
      legal-move list);
  2 : after e2-e4 e7-e5;
  5 : a position with a white pawn on e7 (square 52) whose only scripted
      legal move is the queen promotion e7-e8=Q (52 -> 60);
  6 : the position after that promotion;
  9 : a drawn king-versus-king position: python-chess reports
      is_game_over() = True (insufficient material) while legal king moves
      (scripted as 0 -> 1) are still enumerated;
  99 : sink for unscripted pushes.
-/

/-- Scripted chess-engine instance over Nat state identifiers. -/
def StubE : Engine Nat where
  turn := fun b => if b = 1 then BLACK else WHITE
  piece_at := fun b sq =>
    if b = 0 ∧ sq = 12 then some ⟨WHITE, PieceType.pawn⟩
    else if b = 1 ∧ sq = 52 then some ⟨BLACK, PieceType.pawn⟩
    else if b = 5 ∧ sq = 52 then some ⟨WHITE, PieceType.pawn⟩
    else none
  legal_moves := fun b =>
    if b = 0 then [⟨12, 28, none⟩]
    else if b = 1 then [⟨52, 36, none⟩]
    else if b = 5 then [⟨52, 60, some PieceType.queen⟩]
    else if b = 9 then [⟨0, 1, none⟩]
    else []
  is_capture := fun _ _ => false
  push := fun b m =>
    if b = 0 ∧ m = ⟨12, 28, none⟩ then 1
    else if b = 1 ∧ m = ⟨52, 36, none⟩ then 2
    else if b = 5 ∧ m = ⟨52, 60, some PieceType.queen⟩ then 6
    else 99
  is_game_over := fun b => b == 9
  fen := fun b => toString b
  initial := 0

/-
Helper lemmas.
-/

/-- One loop iteration of target computation preserves the subset relation
between the capture accumulator and the legal accumulator. -/
lemma targetsStep_sub {β : Type} (E : Engine β) (b : β) (sel : Nat)
    (acc : List Nat × List Nat) (m : Move) (h : acc.2 ⊆ acc.1) :
    (targetsStep E b sel acc m).2 ⊆ (targetsStep E b sel acc m).1 := by
  unfold targetsStep
  split
  · split
    · intro x hx
      rcases List.mem_insert_iff.mp hx with hx | hx
      · exact List.mem_insert_iff.mpr (Or.inl hx)
      · exact List.mem_insert_iff.mpr (Or.inr (h hx))
    · intro x hx
      exact List.mem_insert_of_mem (h hx)
  · exact h

/-- Folding the target-computation step preserves the subset relation. -/
lemma foldl_targetsStep_sub {β : Type} (E : Engine β) (b : β) (sel : Nat) :
    ∀ (l : List Move) (acc : List Nat × List Nat), acc.2 ⊆ acc.1 →
      (l.foldl (targetsStep E b sel) acc).2 ⊆ (l.foldl (targetsStep E b sel) acc).1 := by
  intro l
  induction l with
  | nil => intro acc h; simpa using h
  | cons m t ih =>
      intro acc h
      simpa using ih (targetsStep E b sel acc m) (targetsStep_sub E b sel acc m h)

/-- The capture-target list computed for a selected square is a subset of
the legal-target list computed for it. -/
lemma computeTargets_sub {β : Type} (E : Engine β) (b : β) (sel : Nat) :
    (computeTargets E b sel).2 ⊆ (computeTargets E b sel).1 :=
  foldl_targetsStep_sub E b sel (E.legal_moves b) ([], []) (by simp)

/-- The computer move never touches the selection or the target lists. -/
lemma make_computer_move_preserves_sel {β : Type} (E : Engine β) (rng : Nat)
    (st : GuiState β) :
    (make_computer_move E rng st).st.selected_square = st.selected_square ∧
    (make_computer_move E rng st).st.legal_targets = st.legal_targets ∧
    (make_computer_move E rng st).st.capture_targets = st.capture_targets := by
  unfold make_computer_move
  dsimp only
  split
  · exact ⟨rfl, rfl, rfl⟩
  · split
    · exact ⟨rfl, rfl, rfl⟩
    · exact ⟨rfl, rfl, rfl⟩

/-- One click preserves the capture-targets-subset invariant. -/
lemma click_preserves_sub {β : Type} (E : Engine β) (rng : Nat) (st : GuiState β)
    (rank file : Nat) (h : st.capture_targets ⊆ st.legal_targets) :
    (on_square_clicked E rng st rank file).st.capture_targets ⊆
      (on_square_clicked E rng st rank file).st.legal_targets := by
  unfold on_square_clicked
  dsimp only
  repeat' split
  all_goals
    first
      | exact h
      | exact computeTargets_sub E st.board _
      | (simp [clearSel]; done)
      | (rw [(make_computer_move_preserves_sel E rng _).2.2,
             (make_computer_move_preserves_sel E rng _).2.1]
         simp [clearSel])

/-
Claim theorems.
-/

/-- C2: in every GUI state reachable through the program's event handlers
(start-up, square clicks, reset, mode selection) — in particular in every
reachable Selecting state, where the sets are computed by
_compute_targets_for_selected — the capture-target set is a subset of the
legal-target set. -/
theorem reachable_capture_targets_subset {β : Type} (E : Engine β)
    (st : GuiState β) (h : Reachable E st) :
    st.capture_targets ⊆ st.legal_targets := by
  induction h with
  | init => simp [initState]
  | click st rng rank file hr ih => exact click_preserves_sub E rng st rank file ih
  | reset st hr ih => simp [reset_game]
  | mode st m hr ih => simpa [set_mode] using ih

/-- C2 witness: the invariant, applied to the reachable state obtained by
clicking e2 (rank 1, file 4) in the scripted start position. -/
theorem reachable_capture_targets_subset_witness :
    (on_square_clicked StubE 0 (initState StubE) 1 4).st.capture_targets ⊆
      (on_square_clicked StubE 0 (initState StubE) 1 4).st.legal_targets :=
  reachable_capture_targets_subset StubE _ (Reachable.click _ 0 1 4 Reachable.init)

/-- C10: when the game is over, or in human-vs-machine ("pvc") mode with
black — the machine's side — to move, a square click is ignored entirely:
the GUI state (board, selection, target sets, mode) is returned unchanged,
and nothing is sent or applied. -/
theorem click_ignored_gameover_or_machine_turn {β : Type} (E : Engine β)
    (rng : Nat) (st : GuiState β) (rank file : Nat)
    (h : E.is_game_over st.board = true ∨
         (st.mode = Mode.pvc ∧ E.turn st.board = BLACK)) :
    on_square_clicked E rng st rank file = ⟨st, [], []⟩ := by
  rcases h with h | ⟨h1, h2⟩
  · simp [on_square_clicked, h]
  · by_cases hgo : E.is_game_over st.board = true
    · simp [on_square_clicked, hgo]
    · simp [on_square_clicked, hgo, h1, h2]

/-- C10 witness: a click on the drawn (game-over) scripted position 9 is a
complete no-op. -/
theorem click_ignored_gameover_or_machine_turn_witness :
    on_square_clicked StubE 0 ⟨9, none, [], [], Mode.pvp⟩ 0 1 =
      ⟨⟨9, none, [], [], Mode.pvp⟩, [], []⟩ :=
  click_ignored_gameover_or_machine_turn StubE 0 ⟨9, none, [], [], Mode.pvp⟩ 0 1
    (Or.inl (by decide))

/-- C5: while Idle (no selection), clicking a square that is empty or holds
a piece of the side not to move leaves everything unchanged: no selection
is created, the board is untouched, nothing is sent, no move is applied. -/
theorem idle_click_empty_or_opponent_noop {β : Type} (E : Engine β)
    (rng : Nat) (st : GuiState β) (rank file : Nat)
    (hsel : st.selected_square = none)
    (hpc : ∀ p, E.piece_at st.board (square file rank) = some p →
      p.color ≠ E.turn st.board) :
    on_square_clicked E rng st rank file = ⟨st, [], []⟩ := by
  by_cases h1 : E.is_game_over st.board = true
  · simp [on_square_clicked, h1]
  by_cases h2 : st.mode = Mode.pvc ∧ E.turn st.board = BLACK
  · simp [on_square_clicked, h1, h2]
  cases hp : E.piece_at st.board (square file rank) with
  | none => simp [on_square_clicked, h1, h2, hsel, hp]
  | some p => simp [on_square_clicked, h1, h2, hsel, hp, hpc p hp]

/-- C5 witness: clicking the empty square e3 (rank 2, file 4 — square 20)
while Idle in the scripted start position is a no-op. -/
theorem idle_click_empty_or_opponent_noop_witness :
    on_square_clicked StubE 0 (initState StubE) 2 4 =
      ⟨initState StubE, [], []⟩ :=
  idle_click_empty_or_opponent_noop StubE 0 (initState StubE) 2 4 rfl
    (by intro p hp; simp [StubE, initState, square] at hp)

/-- C6: in a Selecting state (with the game not over and the click not
swallowed by the machine-turn guard), clicking the selected square itself
deselects: selection and both target sets are cleared, while the board is
unchanged and nothing is sent or applied. -/
theorem click_selected_square_deselects {β : Type} (E : Engine β)
    (rng : Nat) (st : GuiState β) (rank file sel : Nat)
    (hgo : E.is_game_over st.board = false)
    (hmode : ¬(st.mode = Mode.pvc ∧ E.turn st.board = BLACK))
    (hsel : st.selected_square = some sel)
    (hsq : square file rank = sel) :
    on_square_clicked E rng st rank file =
      ⟨{ st with selected_square := none, legal_targets := [],
                 capture_targets := [] }, [], []⟩ := by
  simp [on_square_clicked, hgo, hmode, hsel, hsq, clearSel]

/-- C6 witness: with e2 (square 12) selected in the scripted start
position, clicking e2 again (rank 1, file 4) deselects and changes nothing
else. -/
theorem click_selected_square_deselects_witness :
    on_square_clicked StubE 0 ⟨0, some 12, [28], [], Mode.pvp⟩ 1 4 =
      ⟨⟨0, none, [], [], Mode.pvp⟩, [], []⟩ :=
  click_selected_square_deselects StubE 0 ⟨0, some 12, [28], [], Mode.pvp⟩ 1 4 12
    rfl (by decide) rfl rfl

/-- C3: in a Selecting state (with the game not over and the click not
swallowed by the machine-turn guard), clicking a square that is neither the
selected square nor the destination of any legal move from it — so that
neither the plain candidate move nor its queen-promotion adjustment is
legal — silently drops the selection: state returns to Idle with the board
unchanged, nothing sent and no move applied (the handler is total, so no
error is raised). -/
theorem illegal_second_click_cancels_selection {β : Type} (E : Engine β)
    (rng : Nat) (st : GuiState β) (rank file sel : Nat)
    (hgo : E.is_game_over st.board = false)
    (hmode : ¬(st.mode = Mode.pvc ∧ E.turn st.board = BLACK))
    (hsel : st.selected_square = some sel)
    (hne : square file rank ≠ sel)
    (hdest : ∀ m ∈ E.legal_moves st.board,
      m.from_square = sel → m.to_square ≠ square file rank) :
    on_square_clicked E rng st rank file =
      ⟨{ st with selected_square := none, legal_targets := [],
                 capture_targets := [] }, [], []⟩ := by
  have h0 : (⟨sel, square file rank, none⟩ : Move) ∉ E.legal_moves st.board := by
    intro hmem
    exact hdest _ hmem rfl rfl
  have hq : (⟨sel, square file rank, some PieceType.queen⟩ : Move) ∉
      E.legal_moves st.board := by
    intro hmem
    exact hdest _ hmem rfl rfl
  by_cases hp : is_pawn_promotion E st.board sel (square file rank) = true
  · simp [on_square_clicked, hgo, hmode, hsel, hne, h0, hp, hq, clearSel]
  · simp [on_square_clicked, hgo, hmode, hsel, hne, h0, hp, clearSel]

/-- C3 witness: with e2 (square 12) selected in the scripted start
position, clicking a1 (rank 0, file 0), which is no legal destination of
e2, cancels the selection and nothing else happens. -/
theorem illegal_second_click_cancels_selection_witness :
    on_square_clicked StubE 0 ⟨0, some 12, [28], [], Mode.pvp⟩ 0 0 =
      ⟨⟨0, none, [], [], Mode.pvp⟩, [], []⟩ :=
  illegal_second_click_cancels_selection StubE 0 ⟨0, some 12, [28], [], Mode.pvp⟩
    0 0 12 rfl (by decide) rfl (by decide) (by decide)

/-- C4: in a Selecting state whose selected square holds a pawn of the side
to move, clicking a last-rank destination (rank 7 for a white pawn, rank 0
for a black pawn) for which the plain move is illegal but the automatic
queen-promotion retry is legal applies the queen-promotion move: it is the
first (human) move pushed on the board. -/
theorem pawn_promotion_applies_queen {β : Type} (E : Engine β)
    (rng : Nat) (st : GuiState β) (rank file sel : Nat) (c : Bool)
    (hgo : E.is_game_over st.board = false)
    (hmode : ¬(st.mode = Mode.pvc ∧ E.turn st.board = BLACK))
    (hsel : st.selected_square = some sel)
    (hne : square file rank ≠ sel)
    (hpawn : E.piece_at st.board sel = some ⟨c, PieceType.pawn⟩)
    (_hturn : c = E.turn st.board)
    (hrank : (c = WHITE ∧ square_rank (square file rank) = 7) ∨
             (c = BLACK ∧ square_rank (square file rank) = 0))
    (hplain : (⟨sel, square file rank, none⟩ : Move) ∉ E.legal_moves st.board)
    (hq : (⟨sel, square file rank, some PieceType.queen⟩ : Move) ∈
      E.legal_moves st.board) :
    (on_square_clicked E rng st rank file).applied.head? =
      some ⟨sel, square file rank, some PieceType.queen⟩ := by
  have hpromo : is_pawn_promotion E st.board sel (square file rank) = true := by
    simp only [is_pawn_promotion, hpawn]
    simp only [ne_eq, not_true_eq_false, if_false, decide_eq_true_eq]
    exact hrank
  by_cases h2 : E.is_game_over
      (E.push st.board ⟨sel, square file rank, some PieceType.queen⟩) = true
  · simp [on_square_clicked, hgo, hmode, hsel, hne, hplain, hpromo, hq, h2]
  · by_cases h3 : st.mode = Mode.pvc
    · have ht : ¬(E.turn st.board = BLACK) := fun hB => hmode ⟨h3, hB⟩
      simp [on_square_clicked, hgo, hmode, hsel, hne, hplain, hpromo, hq, h2, h3, ht]
    · simp [on_square_clicked, hgo, hmode, hsel, hne, hplain, hpromo, hq, h2, h3]

/-- C4 witness: scripted position 5 has a white pawn on e7 (square 52)
selected, whose only legal move is the promotion e7-e8=Q; clicking e8
(rank 7, file 4) applies the queen-promotion move. -/
theorem pawn_promotion_applies_queen_witness :
    (on_square_clicked StubE 0 ⟨5, some 52, [60], [], Mode.pvp⟩ 7 4).applied.head? =
      some ⟨52, 60, some PieceType.queen⟩ :=
  pawn_promotion_applies_queen StubE 0 ⟨5, some 52, [60], [], Mode.pvp⟩ 7 4 52 WHITE
    rfl (by decide) rfl (by decide) rfl rfl (by decide) (by decide) (by decide)

/-- C9 (amended): on a board that is not game-over and whose legal-move
enumeration is nonempty, _make_computer_move pushes a move belonging to that
enumeration — for every choice index, i.e. for every draw of random.choice,
which is uniform over exactly this list — and sends the FEN of the
resulting board; when the enumeration is empty it applies no move and sends
nothing. -/
theorem computer_move_spec {β : Type} (E : Engine β) (rng : Nat)
    (st : GuiState β) :
    (E.is_game_over st.board = false → E.legal_moves st.board ≠ [] →
      ∃ m, m ∈ E.legal_moves st.board ∧
        make_computer_move E rng st =
          ⟨{ st with board := E.push st.board m },
           [E.fen (E.push st.board m)], [m]⟩) ∧
    (E.legal_moves st.board = [] →
      make_computer_move E rng st = ⟨st, [], []⟩) := by
  constructor
  · intro hgo hne
    have hlt : rng % (E.legal_moves st.board).length < (E.legal_moves st.board).length :=
      Nat.mod_lt _ (List.length_pos.mpr hne)
    refine ⟨(E.legal_moves st.board).getD (rng % (E.legal_moves st.board).length)
      ⟨0, 0, none⟩, ?_, ?_⟩
    · rw [List.getD_eq_getElem _ _ hlt]
      exact List.getElem_mem hlt
    · have hemp : (E.legal_moves st.board).isEmpty = false := by
        simp [List.isEmpty_iff, hne]
      unfold make_computer_move
      dsimp only
      rw [hgo, hemp]
      simp
  · intro hnil
    by_cases hgo : E.is_game_over st.board = true
    · simp [make_computer_move, hgo]
    · simp [make_computer_move, hgo, hnil]

/-- C9 witness: in the scripted start position (not game-over, one legal
move) the computer move pushes a member of the enumeration. -/
theorem computer_move_spec_witness :
    ∃ m, m ∈ StubE.legal_moves (0 : Nat) ∧
      make_computer_move StubE 7 ⟨0, none, [], [], Mode.pvp⟩ =
        ⟨{ board := StubE.push 0 m, selected_square := none, legal_targets := [],
           capture_targets := [], mode := Mode.pvp },
         [StubE.fen (StubE.push 0 m)], [m]⟩ :=
  (computer_move_spec StubE 7 ⟨0, none, [], [], Mode.pvp⟩).1 rfl (by decide)

/-- C9 counterexample: scripted position 9 abstracts a king-versus-king
draw, where python-chess reports is_game_over() = True (insufficient
material) while the legal-move enumeration is nonempty.  There
_make_computer_move returns without applying or sending anything, so the
claim as stated — a move is returned whenever the enumeration is
nonempty — is false. -/
theorem computer_move_gameover_counterexample :
    StubE.legal_moves (9 : Nat) ≠ [] ∧
    make_computer_move StubE 0 ⟨9, none, [], [], Mode.pvp⟩ =
      ⟨⟨9, none, [], [], Mode.pvp⟩, [], []⟩ := by
  constructor
  · decide
  · rfl

/-- C1 (amended): in two-player ("pvp") mode, on a board whose game is not
over, for every legal plain move m (promotion-free, as two bare clicks
produce): clicking m's origin square while Idle selects it without sending
or applying anything, and then clicking m's destination square yields
exactly the board obtained by applying m, returns the machine to Idle, and
sends exactly one FEN string — the encoding of that new board.  (The
occupancy hypotheses are facts of every real chess position with m legal:
the origin holds a piece of the side to move, and origin and destination
differ.) -/
theorem legal_move_two_click_pvp {β : Type} (E : Engine β) (rng1 rng2 : Nat)
    (st : GuiState β) (m : Move) (p : Piece)
    (hmode : st.mode = Mode.pvp)
    (hsel : st.selected_square = none)
    (hgo : E.is_game_over st.board = false)
    (hm : m ∈ E.legal_moves st.board)
    (hpromo : m.promotion = none)
    (hne : m.from_square ≠ m.to_square)
    (hpiece : E.piece_at st.board m.from_square = some p)
    (hcol : p.color = E.turn st.board) :
    (on_square_clicked E rng1 st (m.from_square / 8) (m.from_square % 8)).st.board
        = st.board ∧
    (on_square_clicked E rng1 st (m.from_square / 8) (m.from_square % 8)).sent = [] ∧
    (on_square_clicked E rng1 st (m.from_square / 8) (m.from_square % 8)).applied = [] ∧
    (on_square_clicked E rng2
        (on_square_clicked E rng1 st (m.from_square / 8) (m.from_square % 8)).st
        (m.to_square / 8) (m.to_square % 8)).st.board = E.push st.board m ∧
    (on_square_clicked E rng2
        (on_square_clicked E rng1 st (m.from_square / 8) (m.from_square % 8)).st
        (m.to_square / 8) (m.to_square % 8)).st.selected_square = none ∧
    (on_square_clicked E rng2
        (on_square_clicked E rng1 st (m.from_square / 8) (m.from_square % 8)).st
        (m.to_square / 8) (m.to_square % 8)).sent = [E.fen (E.push st.board m)] ∧
    (on_square_clicked E rng2
        (on_square_clicked E rng1 st (m.from_square / 8) (m.from_square % 8)).st
        (m.to_square / 8) (m.to_square % 8)).applied = [m] := by
  obtain ⟨f, t, pr⟩ := m
  simp only [Move.promotion] at hpromo
  subst hpromo
  simp only [Move.from_square, Move.to_square] at hm hne hpiece ⊢
  have hsq1 : square (f % 8) (f / 8) = f := by
    unfold square
    omega
  have hsq2 : square (t % 8) (t / 8) = t := by
    unfold square
    omega
  have e1 : on_square_clicked E rng1 st (f / 8) (f % 8) =
      ⟨{ st with selected_square := some f,
                 legal_targets := (computeTargets E st.board f).1,
                 capture_targets := (computeTargets E st.board f).2 }, [], []⟩ := by
    simp [on_square_clicked, hgo, hmode, hsel, hsq1, hpiece, hcol]
  rw [e1]
  have hne2 : t ≠ f := fun h => hne h.symm
  have hmv : ¬((⟨f, t, none⟩ : Move) ∉ E.legal_moves st.board ∧
      is_pawn_promotion E st.board f t = true) := fun h => h.1 hm
  by_cases h2 : E.is_game_over (E.push st.board ⟨f, t, none⟩) = true
  · simp [on_square_clicked, hgo, hmode, hsq2, hne2, hmv, hm, h2, clearSel]
  · simp [on_square_clicked, hgo, hmode, hsq2, hne2, hmv, hm, h2, clearSel]

/-- C1 witness: in the scripted start position in pvp mode, clicking e2
(square 12) and then e4 (square 28) applies exactly the scripted legal move
12 -> 28 and sends exactly the FEN of the resulting position. -/
theorem legal_move_two_click_pvp_witness :
    (on_square_clicked StubE 0 (initState StubE) (12 / 8) (12 % 8)).st.board
        = (initState StubE).board ∧
    (on_square_clicked StubE 0 (initState StubE) (12 / 8) (12 % 8)).sent = [] ∧
    (on_square_clicked StubE 0 (initState StubE) (12 / 8) (12 % 8)).applied = [] ∧
    (on_square_clicked StubE 0
        (on_square_clicked StubE 0 (initState StubE) (12 / 8) (12 % 8)).st
        (28 / 8) (28 % 8)).st.board = StubE.push (initState StubE).board ⟨12, 28, none⟩ ∧
    (on_square_clicked StubE 0
        (on_square_clicked StubE 0 (initState StubE) (12 / 8) (12 % 8)).st
        (28 / 8) (28 % 8)).st.selected_square = none ∧
    (on_square_clicked StubE 0
        (on_square_clicked StubE 0 (initState StubE) (12 / 8) (12 % 8)).st
        (28 / 8) (28 % 8)).sent
        = [StubE.fen (StubE.push (initState StubE).board ⟨12, 28, none⟩)] ∧
    (on_square_clicked StubE 0
        (on_square_clicked StubE 0 (initState StubE) (12 / 8) (12 % 8)).st
        (28 / 8) (28 % 8)).applied = [⟨12, 28, none⟩] :=
  legal_move_two_click_pvp StubE 0 0 (initState StubE) ⟨12, 28, none⟩
    ⟨WHITE, PieceType.pawn⟩ rfl rfl rfl (by decide) rfl (by decide) rfl rfl

/-- C1 counterexample: the claim as stated fails on the code in two
reachable situations.  (a) In "pvc" mode (scripted start position, the
human playing the legal move e2-e4): the handler additionally plays the
machine reply, so the final board differs from applying the clicked move
alone and two FEN strings are sent, not one.  (b) On a drawn board whose
legal-move enumeration is nonempty (scripted position 9, a king-versus-king
draw): the game-over guard swallows both clicks, no move is applied and no
FEN is sent. -/
theorem legal_move_two_click_counterexample :
    (on_square_clicked StubE 0
        (on_square_clicked StubE 0 ⟨0, none, [], [], Mode.pvc⟩ 1 4).st 3 4).st.board
        ≠ StubE.push 0 ⟨12, 28, none⟩ ∧
    (on_square_clicked StubE 0
        (on_square_clicked StubE 0 ⟨0, none, [], [], Mode.pvc⟩ 1 4).st 3 4).sent.length
        ≠ 1 ∧
    (⟨0, 1, none⟩ : Move) ∈ StubE.legal_moves 9 ∧
    (on_square_clicked StubE 0
        (on_square_clicked StubE 0 ⟨9, none, [], [], Mode.pvp⟩ 0 0).st 0 1).st.board
        ≠ StubE.push 9 ⟨0, 1, none⟩ ∧
    (on_square_clicked StubE 0
        (on_square_clicked StubE 0 ⟨9, none, [], [], Mode.pvp⟩ 0 0).st 0 1).sent.length
        ≠ 1 := by
  refine ⟨?_, ?_, ?_, ?_, ?_⟩ <;> decide

/-- UTF-8 encoding distributes over string append. -/
lemma utf8Encode_append (s t : String) :
    utf8Encode (s ++ t) = utf8Encode s ++ utf8Encode t := by
  unfold utf8Encode
  rw [String.data_append, List.flatMap_append]

/-- If a character list ends in a newline, its UTF-8 encoding ends in the
byte 10. -/
lemma flatMap_utf8_getLast (l : List Char) (h : l.getLast? = some '\n') :
    (l.flatMap utf8EncodeChar).getLast? = some 10 := by
  induction l with
  | nil => simp at h
  | cons c rest ih =>
    cases rest with
    | nil =>
      simp only [List.getLast?_singleton, Option.some_inj] at h
      subst h
      decide
    | cons d rest2 =>
      rw [List.getLast?_cons_cons] at h
      rw [List.flatMap_cons, List.getLast?_append, ih h, Option.or_some]

/-- If a string ends in a newline, its UTF-8 encoding ends in the byte 10. -/
lemma utf8Encode_getLast (s : String) (h : s.data.getLast? = some '\n') :
    (utf8Encode s).getLast? = some 10 :=
  flatMap_utf8_getLast s.data h

/-- C8: send_line writes exactly the UTF-8 bytes of the text followed by a
single trailing newline byte: when the text does not already end in a
newline exactly one newline byte is appended, when it does no extra byte is
added, and in either case the written byte sequence ends in exactly one
newline byte 10. -/
theorem send_line_spec (line : String) :
    (endswith_newline line = false →
      send_line line = utf8Encode line ++ [10]) ∧
    (endswith_newline line = true → send_line line = utf8Encode line) ∧
    (send_line line).getLast? = some 10 := by
  have hnl : utf8Encode "\n" = [10] := by decide
  have hone : endswith_newline line = false →
      send_line line = utf8Encode line ++ [10] := by
    intro h
    unfold send_line
    rw [h]
    simp only [Bool.false_eq_true, if_false]
    rw [utf8Encode_append, hnl]
  have htwo : endswith_newline line = true → send_line line = utf8Encode line := by
    intro h
    simp [send_line, h]
  refine ⟨hone, htwo, ?_⟩
  by_cases h : endswith_newline line = true
  · rw [htwo h]
    exact utf8Encode_getLast line (by simpa [endswith_newline] using h)
  · rw [hone (by simpa using h)]
    exact List.getLast?_concat _

/-- C8 witness: applied to the line "ok", which does not end in a newline,
exactly one newline byte is appended after its UTF-8 bytes. -/
theorem send_line_spec_witness :
    send_line "ok" = utf8Encode "ok" ++ [10] :=
  (send_line_spec "ok").1 (by decide)

/-- C7: after the port is open, read_line is a total function of the
underlying readline outcome — it never raises.  A raised transport
exception is swallowed and yields the empty string; a plain timeout
(pyserial returns the empty byte string b"") yields the empty string; and
any byte sequence yields its UTF-8 decode (with malformed sequences
ignored, so decoding cannot fail) trimmed of surrounding whitespace. -/
theorem read_line_spec (o : ReadOutcome) :
    (o = ReadOutcome.raise → read_line o = "") ∧
    (o = ReadOutcome.bytes [] → read_line o = "") ∧
    (∀ bs, o = ReadOutcome.bytes bs →
      read_line o = pyStrip (decodeUtf8Ignore bs)) := by
  refine ⟨?_, ?_, ?_⟩
  · intro h
    subst h
    rfl
  · intro h
    subst h
    rfl
  · intro bs h
    subst h
    rfl

/-- C7 witness: the bytes of "OK\r\n" decode and trim to "OK"; applied via
the specification theorem at that concrete outcome. -/
theorem read_line_spec_witness :
    read_line (ReadOutcome.bytes [79, 75, 13, 10]) =
      pyStrip (decodeUtf8Ignore [79, 75, 13, 10]) ∧
    pyStrip (decodeUtf8Ignore [79, 75, 13, 10]) = "OK" :=
  ⟨(read_line_spec (ReadOutcome.bytes [79, 75, 13, 10])).2.2 [79, 75, 13, 10] rfl,
   by decide⟩
